import Mathlib

/-!
Verification of the raylib FFI code generator (`build/api.rs`).

Strings are modelled as `List Char`; Rust's fallible operations
(`unwrap` on parses) are modelled with `Option`.
-/

set_option maxHeartbeats 1000000

namespace RaylibGen

/-- The reference/array marker parsed off the end of a C type string
(`enum RefType` in the source). -/
inductive RefType where
  | none
  | ref
  | doubleRef
  | array (size : Nat)
deriving DecidableEq, Repr

/-- `str.strip_prefix(p)`: remove `p` from the front if it is a prefix. -/
def stripPre (p s : List Char) : Option (List Char) :=
  if p <+: s then some (s.drop p.length) else Option.none

/-- `str.strip_suffix(p)`: remove `p` from the back if it is a suffix. -/
def stripSuf (p s : List Char) : Option (List Char) :=
  if p <:+ s then some (s.take (s.length - p.length)) else Option.none

/-- `str.find(c)`: index of the first occurrence of `c`, if any. -/
def findChar (c : Char) : List Char → Option Nat
  | [] => Option.none
  | x :: xs => if x = c then some 0 else (findChar c xs).map (· + 1)

/-- Rust `str::parse::<u32>()`: optional leading `+`, one or more ASCII
digits, value below `2^32`. -/
def parseU32 (s : List Char) : Option Nat :=
  let digits := match s with
    | '+' :: rest => rest
    | _ => s
  if digits ≠ [] ∧ digits.all Char.isDigit ∧
      digits.foldl (fun acc c => acc * 10 + (c.toNat - 48)) 0 < 4294967296 then
    some (digits.foldl (fun acc c => acc * 10 + (c.toNat - 48)) 0)
  else
    Option.none

/-- The fixed base-type lookup table of `format_type` (the `match dt`
arms, in source order; alternation arms appear as separate rows). -/
def baseTable : List (List Char × List Char) :=
  [((r"float").toList, (r"core::ffi::c_float").toList),
   ((r"double").toList, (r"core::ffi::c_double").toList),
   ((r"unsigned char").toList, (r"core::ffi::c_uchar").toList),
   ((r"signed char").toList, (r"core::ffi::c_schar").toList),
   ((r"char").toList, (r"core::ffi::c_char").toList),
   ((r"unsigned short").toList, (r"core::ffi::c_ushort").toList),
   ((r"signed short").toList, (r"core::ffi::c_short").toList),
   ((r"short").toList, (r"core::ffi::c_short").toList),
   ((r"unsigned int").toList, (r"core::ffi::c_uint").toList),
   ((r"signed int").toList, (r"core::ffi::c_int").toList),
   ((r"int").toList, (r"core::ffi::c_int").toList),
   ((r"unsigned long").toList, (r"core::ffi::c_ulong").toList),
   ((r"signed long").toList, (r"core::ffi::c_long").toList),
   ((r"long").toList, (r"core::ffi::c_long").toList),
   ((r"unsigned long long").toList, (r"core::ffi::c_ulonglong").toList),
   ((r"signed long long").toList, (r"core::ffi::c_longlong").toList),
   ((r"long long").toList, (r"core::ffi::c_longlong").toList),
   ((r"void").toList, (r"core::ffi::c_void").toList),
   ((r"va_list").toList, (r"*mut core::ffi::c_void").toList)]

/-- Base-type mapping: a name in the table maps to its Rust FFI
equivalent, anything else passes through unchanged. -/
def mapBase (dt : List Char) : List Char :=
  match baseTable.find? (fun p => p.1 = dt) with
  | some p => p.2
  | Option.none => dt

/-- Every key of `mapBase`'s lookup table. -/
def baseKeys : List (List Char) := baseTable.map Prod.fst

/-- First stage of `format_type`: strip an optional `"const "` prefix,
remembering whether it was present. -/
def splitConst (dataType : List Char) : List Char × Bool :=
  match stripPre ((r"const ").toList) dataType with
  | some dt => (dt, true)
  | Option.none => (dataType, false)

/-- Second stage of `format_type`: strip the trailing reference/array
marker, in the source's priority order (`" *"`, then `" **"`, then a
`[N]` whose count is parsed between the first `[` and the first `]`).
`Option.none` models the source's `unwrap` panics on malformed arrays. -/
def splitRef (dt : List Char) : Option (List Char × RefType) :=
  match stripSuf ((r" *").toList) dt with
  | some newDt => some (newDt, RefType.ref)
  | Option.none =>
    match stripSuf ((r" **").toList) dt with
    | some newDt => some (newDt, RefType.doubleRef)
    | Option.none =>
      match findChar '[' dt with
      | some pos1 =>
        match findChar ']' dt with
        | some pos2 =>
          match parseU32 ((dt.drop (pos1 + 1)).take (pos2 - (pos1 + 1))) with
          | some n => some (dt.take pos1, RefType.array n)
          | Option.none => Option.none
        | Option.none => Option.none
      | Option.none => some (dt, RefType.none)

/-- Decimal rendering of an integer, as Rust's `Display` does. -/
def natStr (n : Nat) : List Char := (Nat.repr n).toList

/-- Final stage of `format_type`: compose the mapped base type with the
reference marker and the mutability chosen from constness. -/
def emitType (typeStr : List Char) (refType : RefType) (isConst : Bool) : List Char :=
  let mutability := if isConst then (r"const").toList else (r"mut").toList
  match refType with
  | RefType.none => typeStr
  | RefType.ref => '*' :: mutability ++ ' ' :: typeStr
  | RefType.doubleRef => '*' :: mutability ++ ' ' :: '*' :: mutability ++ ' ' :: typeStr
  | RefType.array size => '[' :: typeStr ++ ';' :: ' ' :: natStr size ++ [']']

/-- `format_type` from `build/api.rs`: C declarator string to Rust FFI
type string. -/
def format_type (dataType : List Char) : Option (List Char) :=
  let p := splitConst dataType
  (splitRef p.1).map (fun q => emitType (mapBase q.1) q.2 p.2)


/-- A `(name, type, description)` triple, used for struct fields, type
aliases and function parameters (`struct TypedIdent`). -/
structure TypedIdent where
  name : List Char
  data_type : List Char
  description : List Char
deriving DecidableEq, Repr

/-- One enum value: name, numeric code (a `u32`), description
(`struct EnumValue`). -/
structure EnumValue where
  name : List Char
  description : List Char
  value : Nat
deriving DecidableEq, Repr

/-- A named enum with its ordered value list (`struct Enum`). -/
structure Enum where
  name : List Char
  description : List Char
  values : List EnumValue
deriving DecidableEq, Repr

/-- The enum families whose native value names carry two prefix words
(`Enum::prefix_count`'s first match arm). -/
def doubleSkipNames : List (List Char) :=
  [(r"CubemapLayout").toList, (r"GamepadAxis").toList, (r"GamepadButton").toList,
   (r"MaterialMapIndex").toList, (r"MouseButton").toList, (r"MouseCursor").toList,
   (r"PixelFormat").toList, (r"ShaderAttributeDataType").toList,
   (r"ShaderLocationIndex").toList, (r"ShaderUniformDataType").toList,
   (r"TextureFilter").toList, (r"TextureWrap").toList]

/-- `Enum::prefix_count`: how many leading `_`-separated segments of a
value name are dropped. -/
def Enum.prefix_count (e : Enum) : Nat :=
  if e.name ∈ doubleSkipNames then 2 else 1

/-- `Enum::is_bitflags`: the fixed bitflag allow-list. -/
def Enum.is_bitflags (e : Enum) : Bool :=
  e.name = (r"ConfigFlags").toList ∨ e.name = (r"Gesture").toList

/-- Where lower-casing of a segment starts: index 1, or 2 for a segment
beginning with `IVEC`. -/
def segLowerStart (s : List Char) : Nat :=
  if (r"IVEC").toList <+: s then 2 else 1

/-- Where lower-casing of a segment stops: the end, excluding the last
character for a segment ending in `2D`. -/
def segLowerStop (s : List Char) : Nat :=
  if (r"2D").toList <:+ s then s.length - 1 else s.length

/-- The per-segment body of `Enum::format_value_name`: segments of
length > 1 are lower-cased on the `[segLowerStart, segLowerStop)` slice,
except that for the `PixelFormat` enum a segment containing an ASCII
digit is kept verbatim. -/
def formatSegment (enumName : List Char) (s : List Char) : List Char :=
  if s.length > 1 ∧ ¬(enumName = (r"PixelFormat").toList ∧ s.any Char.isDigit) then
    s.take (segLowerStart s) ++
      ((s.drop (segLowerStart s)).take (segLowerStop s - segLowerStart s)).map Char.toLower ++
      s.drop (segLowerStop s)
  else s

/-- `Enum::format_value_name`: split on `_`, skip the prefix segments,
normalize each remaining segment, concatenate. -/
def Enum.format_value_name (e : Enum) (valueName : List Char) : List Char :=
  (((valueName.splitOn '_').drop e.prefix_count).map (formatSegment e.name)).flatten


/-- The text emitted for one kept value of a plain enum: its doc line
and its `Name = value,` discriminant line. -/
def renderVariant (e : Enum) (v : EnumValue) : List Char :=
  "\t/// ".toList ++ v.description ++ "\n\t".toList ++
    e.format_value_name v.name ++ " = ".toList ++ natStr v.value ++ ",\n".toList

/-- The loop body of `Enum::generate_code`: walk the values keeping a
set (`values` in the source) of already-emitted numeric codes, emitting
only values whose code is new. -/
def genValues (e : Enum) : List EnumValue → List Nat → List Char → List Char
  | [], _, code => code
  | v :: rest, seen, code =>
    if v.value ∈ seen then genValues e rest seen code
    else genValues e rest (v.value :: seen) (code ++ renderVariant e v)

/-- The same loop, abstracted to the list of values it keeps. -/
def dedupValues : List EnumValue → List Nat → List EnumValue
  | [], _ => []
  | v :: rest, seen =>
    if v.value ∈ seen then dedupValues rest seen
    else v :: dedupValues rest (v.value :: seen)

/-- The doc/attribute header emitted for every enum before choosing the
plain or bitflag shape. -/
def enumHeader (e : Enum) : List Char :=
  "\n/// ".toList ++ e.description ++ "\n".toList ++
    "#[repr(C)]\n".toList ++
    "#[derive(Clone, Copy, Debug, PartialEq, Eq, Hash)]\n".toList ++
    "#[cfg_attr(feature = \"serde\", derive(serde::Serialize, serde::Deserialize))]\n".toList

/-- `str::split_inclusive(c)`: split after each occurrence of `c`,
keeping the separator at the end of each piece; no trailing empty
piece. -/
def splitInclusive (c : Char) : List Char → List (List Char)
  | [] => []
  | x :: xs =>
    if x = c then [x] :: splitInclusive c xs
    else
      match splitInclusive c xs with
      | [] => [[x]]
      | s :: rest => (x :: s) :: rest


/-- The bit-constant name emitted by `Enum::generate_bitflags`: the
value name's `_`-inclusive segments after the prefix, re-concatenated
(so underscores and casing are preserved). -/
def bitflagName (e : Enum) (valueName : List Char) : List Char :=
  ((splitInclusive '_' valueName).drop e.prefix_count).flatten

/-- The `(constant name, numeric value)` pairs emitted by the bitflag
path, one per value in order, no deduplication. -/
def bitflagEntries (e : Enum) : List (List Char × Nat) :=
  e.values.map (fun v => (bitflagName e v.name, v.value))

/-- The value of the synthetic trailing `const _ = !0;` catch-all:
`!0` on `u32` is `2^32 - 1`, every bit set. -/
def catchAllValue : Nat := 4294967295

/-- The text emitted for one value by the bitflag path: its doc line
and its `const NAME = value;` line. -/
def renderBitflag (e : Enum) (v : EnumValue) : List Char :=
  "\t\t/// ".toList ++ v.description ++ "\n".toList ++
    "\t\tconst ".toList ++ bitflagName e v.name ++ " = ".toList ++
    natStr v.value ++ ";\n".toList

/-- `Enum::generate_bitflags`: the bitflags-shaped emission. -/
def Enum.generate_bitflags (e : Enum) (code : List Char) : List Char :=
  let code := code ++ "pub struct ".toList ++ e.name ++ "(u32);\n\n".toList ++
    "bitflags::bitflags! \x7b\n\timpl ".toList ++ e.name ++ ": u32 \x7b\n".toList
  let code := e.values.foldl (fun acc v => acc ++ renderBitflag e v) code
  code ++ "\n\t\tconst _ = !0;\n".toList ++ "\t\x7d\n\x7d\n".toList

/-- `Enum::generate_code`: common header, then the bitflag shape for
allow-listed enums, else the plain enum with duplicate numeric codes
suppressed. -/
def Enum.generate_code (e : Enum) (code : List Char) : List Char :=
  let code := code ++ enumHeader e
  if e.is_bitflags then e.generate_bitflags code
  else
    genValues e e.values []
      (code ++ "pub enum ".toList ++ e.name ++ " \x7b\n".toList) ++ "\x7d\n".toList

/-- A struct: name, description, ordered fields (`struct Struct`). -/
structure Struct where
  name : List Char
  description : List Char
  fields : List TypedIdent
deriving DecidableEq, Repr

/-- The field lines of `Struct::generate_code`, in declared order;
`Option.none` models a `format_type` panic on a malformed field type. -/
def renderFields : List TypedIdent → Option (List Char)
  | [] => some []
  | f :: rest =>
    match format_type f.data_type, renderFields rest with
    | some t, some body =>
      some ("\t/// ".toList ++ f.description ++ "\n".toList ++
        "\tpub ".toList ++ f.name ++ ": ".toList ++ t ++ ",\n".toList ++ body)
    | _, _ => Option.none

/-- `Struct::generate_code`. -/
def Struct.generate_code (s : Struct) (code : List Char) : Option (List Char) :=
  let code := code ++ "\n/// ".toList ++ s.description ++ "\n".toList ++
    "#[repr(C)]\n#[derive(Clone, Debug)]\n".toList ++
    "pub struct ".toList ++ s.name ++ " \x7b\n".toList
  (renderFields s.fields).map (fun body => code ++ body ++ "\x7d\n".toList)

/-- A function or callback signature (`struct Function`). -/
structure Function where
  name : List Char
  description : List Char
  return_type : List Char
  params : List TypedIdent
deriving DecidableEq, Repr

/-- The reserved-word rename applied to parameter names in
`Function::generate_code_common`. -/
def escapeName (n : List Char) : List Char :=
  if n = (r"type").toList then (r"r#type").toList
  else if n = (r"box").toList then (r"r#box").toList
  else n

/-- One parameter of `Function::generate_code_common`: the variadic
marker for the `"..."` type, else `name: type, ` with the name escaped
and the type mapped. -/
def renderParam (p : TypedIdent) : Option (List Char) :=
  if p.data_type = (r"...").toList then some ((r"..., ").toList)
  else (format_type p.data_type).map
    (fun t => escapeName p.name ++ ": ".toList ++ t ++ ", ".toList)

/-- All parameters of a signature, in order. -/
def renderParams : List TypedIdent → Option (List Char)
  | [] => some []
  | p :: rest =>
    match renderParam p, renderParams rest with
    | some r, some rs => some (r ++ rs)
    | _, _ => Option.none

/-- `Function::generate_code_common`: parenthesized parameter list,
then a ` -> mapped-return-type` exactly when the return type is not
`"void"`. -/
def Function.generate_code_common (f : Function) (code : List Char) : Option (List Char) :=
  match renderParams f.params with
  | Option.none => Option.none
  | some ps =>
    let code := code ++ '(' :: ps ++ [')']
    if f.return_type = (r"void").toList then some code
    else (format_type f.return_type).map (fun t => code ++ " -> ".toList ++ t)

/-- `Function::generate_code_as_callback`: a nullable function-pointer
type alias wrapped around the common signature. -/
def Function.generate_code_as_callback (f : Function) (code : List Char) : Option (List Char) :=
  (f.generate_code_common (code ++ "/// ".toList ++ f.description ++ "\n".toList ++
      "pub type ".toList ++ f.name ++ " = Option<unsafe extern \"C\" fn".toList)).map
    (fun c => c ++ ">;\n".toList)

/-- `Function::generate_code_as_function`: an extern-block item wrapped
around the common signature. -/
def Function.generate_code_as_function (f : Function) (code : List Char) : Option (List Char) :=
  (f.generate_code_common (code ++ "\t/// ".toList ++ f.description ++ "\n".toList ++
      "\tpub fn ".toList ++ f.name)).map (fun c => c ++ ";\n".toList)

/-- A JSON value as far as `Definition::generate_code` inspects it
(`serde_json::Value`). -/
inductive JsonValue where
  | vnull
  | vbool (b : Bool)
  | vint (n : Int)
  | vstr (s : List Char)
  | varr
  | vobj
deriving DecidableEq, Repr

/-- `Value::as_u64`: the value when it is a non-negative integer below
`2^64`. -/
def JsonValue.as_u64 : JsonValue → Option Nat
  | JsonValue.vint n => if 0 ≤ n ∧ n < 18446744073709551616 then some n.toNat else Option.none
  | _ => Option.none

/-- `Value::as_str`: the value when it is a string. -/
def JsonValue.as_str : JsonValue → Option (List Char)
  | JsonValue.vstr s => some s
  | _ => Option.none

/-- A named compile-time constant from the API document
(`struct Definition`): its `type` field is the kind string. -/
structure Definition where
  name : List Char
  kind : List Char
  value : JsonValue
  description : List Char
deriving DecidableEq, Repr

/-- `Definition::generate_code`: `INT` kinds emit a `u32` constant,
`STRING` kinds a `&str` constant, any other kind emits nothing; the
`Option` models the `unwrap` panic when the JSON value has the wrong
shape for the kind. -/
def Definition.generate_code (d : Definition) (code : List Char) : Option (List Char) :=
  if d.kind = (r"INT").toList then
    (d.value.as_u64).map (fun n =>
      code ++ "pub const ".toList ++ d.name ++ ": u32 = ".toList ++ natStr n ++ ";\n".toList)
  else if d.kind = (r"STRING").toList then
    (d.value.as_str).map (fun s =>
      code ++ "pub const ".toList ++ d.name ++ ": &str = \"".toList ++ s ++ "\";\n".toList)
  else
    some code


/-- A sample plain enum whose two values share the numeric code 3. -/
def fooEnum : Enum :=
  ⟨(r"FooEnum").toList, [],
   [⟨(r"FOO_A").toList, [], 3⟩, ⟨(r"FOO_B").toList, [], 3⟩]⟩

/-- A sample allow-listed bitflag enum with a duplicated numeric code. -/
def cfgEnum : Enum :=
  ⟨(r"ConfigFlags").toList, [],
   [⟨(r"FLAG_VSYNC_HINT").toList, [], 64⟩, ⟨(r"FLAG_DUP_HINT").toList, [], 64⟩]⟩

/-- A sample struct with a field literally named `type`. -/
def typeFieldStruct : Struct :=
  ⟨(r"S").toList, [], [⟨(r"type").toList, (r"int").toList, []⟩]⟩

/-- A sample signature with parameters named `type`, `box` and `other`. -/
def escFunction : Function :=
  ⟨(r"DoThing").toList, [], (r"void").toList,
   [⟨(r"type").toList, (r"int").toList, []⟩,
    ⟨(r"box").toList, (r"float").toList, []⟩,
    ⟨(r"other").toList, (r"char *").toList, []⟩]⟩

/-- A sample `Definition` of an unsupported kind. -/
def floatDefinition : Definition :=
  ⟨(r"PI").toList, (r"FLOAT").toList, JsonValue.vint 3, []⟩

/-- The signature text generated for `escFunction`. -/
def escFunctionExpected : List Char :=
  "(r#type: core::ffi::c_int, r#box: core::ffi::c_float, other: *mut core::ffi::c_char, )".toList

/-- The struct text generated for `typeFieldStruct`: the field named
`type` appears verbatim, unescaped. -/
def typeFieldStructExpected : List Char :=
  "\n/// \n#[repr(C)]\n#[derive(Clone, Debug)]\npub struct S \x7b\n\t/// \n\tpub type: core::ffi::c_int,\n\x7d\n".toList

/-- A sample void-returning signature. -/
def voidFunction : Function :=
  ⟨(r"CloseWindow").toList, [], (r"void").toList, []⟩

/-!  Helper lemmas about the embedded operations. -/

theorem findChar_eq_none {c : Char} {s : List Char} (h : c ∉ s) :
    findChar c s = Option.none := by
  induction s with
  | nil => rfl
  | cons x xs ih =>
    simp only [List.mem_cons, not_or] at h
    simp [findChar, if_neg (Ne.symm h.1), ih h.2]

theorem splitConst_of_not {s : List Char} (h : ¬ ((r"const ").toList <+: s)) :
    splitConst s = (s, false) := by
  unfold splitConst stripPre
  rw [if_neg h]

theorem splitConst_append (dt : List Char) :
    splitConst ((r"const ").toList ++ dt) = (dt, true) := by
  unfold splitConst stripPre
  rw [if_pos (List.prefix_append _ _), List.drop_left]

theorem splitRef_self {dt : List Char} (h2 : ¬ ((r" *").toList <:+ dt))
    (h3 : ¬ ((r" **").toList <:+ dt)) (h4 : '[' ∉ dt) :
    splitRef dt = some (dt, RefType.none) := by
  unfold splitRef stripSuf
  rw [if_neg h2, if_neg h3, findChar_eq_none h4]

theorem mapBase_eq_self {dt : List Char} (h : dt ∉ baseKeys) : mapBase dt = dt := by
  have hf : baseTable.find? (fun p => p.1 = dt) = Option.none := by
    refine List.find?_eq_none.mpr ?_
    intro x hx hpx
    refine h ?_
    have hx1 : x.1 = dt := of_decide_eq_true hpx
    exact hx1 ▸ List.mem_map_of_mem Prod.fst hx
  simp [mapBase, hf]

theorem dedupValues_sublist (vs : List EnumValue) (seen : List Nat) :
    (dedupValues vs seen).Sublist vs := by
  induction vs generalizing seen with
  | nil => simp [dedupValues]
  | cons v rest ih =>
    by_cases hv : v.value ∈ seen
    · simp only [dedupValues, if_pos hv]
      exact (ih seen).cons v
    · simp only [dedupValues, if_neg hv]
      exact (ih (v.value :: seen)).cons₂ v

theorem dedupValues_countP_of_mem {c : Nat} (vs : List EnumValue) (seen : List Nat)
    (h : c ∈ seen) : (dedupValues vs seen).countP (fun v => v.value == c) = 0 := by
  induction vs generalizing seen with
  | nil => rfl
  | cons v rest ih =>
    by_cases hv : v.value ∈ seen
    · simp only [dedupValues, if_pos hv]
      exact ih seen h
    · simp only [dedupValues, if_neg hv]
      have hvc : (v.value == c) = false :=
        beq_eq_false_iff_ne.mpr (fun he => hv (he ▸ h))
      rw [List.countP_cons, ih (v.value :: seen) (List.mem_cons_of_mem _ h)]
      simp [hvc]

theorem dedupValues_countP {c : Nat} (vs : List EnumValue) (seen : List Nat)
    (h : c ∉ seen) :
    (dedupValues vs seen).countP (fun v => v.value == c) =
      if vs.any (fun v => v.value == c) then 1 else 0 := by
  induction vs generalizing seen with
  | nil => rfl
  | cons v rest ih =>
    by_cases hv : v.value ∈ seen
    · have hvc : (v.value == c) = false :=
        beq_eq_false_iff_ne.mpr (fun he => h (he ▸ hv))
      simp only [dedupValues, if_pos hv, List.any_cons, hvc, Bool.false_or]
      exact ih seen h
    · by_cases hc : v.value = c
      · subst hc
        simp only [dedupValues, if_neg hv, List.any_cons, beq_self_eq_true,
          Bool.true_or, if_pos]
        rw [List.countP_cons,
          dedupValues_countP_of_mem rest _ (List.mem_cons_self _ _)]
        simp
      · have hvc : (v.value == c) = false := beq_eq_false_iff_ne.mpr hc
        have hc2 : c ∉ v.value :: seen := by
          simp only [List.mem_cons, not_or]
          exact ⟨fun he => hc he.symm, h⟩
        simp only [dedupValues, if_neg hv, List.any_cons, hvc, Bool.false_or]
        rw [List.countP_cons, ih (v.value :: seen) hc2]
        simp [hvc]

theorem dedupValues_find {c : Nat} (vs : List EnumValue) (seen : List Nat)
    (h : c ∉ seen) :
    (dedupValues vs seen).find? (fun v => v.value == c) =
      vs.find? (fun v => v.value == c) := by
  induction vs generalizing seen with
  | nil => rfl
  | cons v rest ih =>
    by_cases hv : v.value ∈ seen
    · have hvc : (v.value == c) = false :=
        beq_eq_false_iff_ne.mpr (fun he => h (he ▸ hv))
      simp only [dedupValues, if_pos hv, List.find?_cons, hvc]
      exact ih seen h
    · by_cases hc : v.value = c
      · subst hc
        simp [dedupValues, if_neg hv, List.find?_cons]
      · have hvc : (v.value == c) = false := beq_eq_false_iff_ne.mpr hc
        have hc2 : c ∉ v.value :: seen := by
          simp only [List.mem_cons, not_or]
          exact ⟨fun he => hc he.symm, h⟩
        simp only [dedupValues, if_neg hv, List.find?_cons, hvc]
        exact ih (v.value :: seen) hc2

theorem genValues_eq (e : Enum) (vs : List EnumValue) (seen : List Nat)
    (code : List Char) :
    genValues e vs seen code =
      code ++ ((dedupValues vs seen).map (renderVariant e)).flatten := by
  induction vs generalizing seen code with
  | nil => simp [genValues, dedupValues]
  | cons v rest ih =>
    by_cases hv : v.value ∈ seen
    · simp only [genValues, dedupValues, if_pos hv]
      exact ih seen code
    · simp only [genValues, dedupValues, if_neg hv]
      rw [ih]
      simp [List.append_assoc]

theorem foldl_append_flatten {α : Type} (f : α → List Char) (l : List α)
    (code : List Char) :
    l.foldl (fun acc v => acc ++ f v) code = code ++ (l.map f).flatten := by
  induction l generalizing code with
  | nil => simp
  | cons x xs ih => simp [List.foldl_cons, ih, List.append_assoc]

theorem splitInclusive_ne_nil (c : Char) (x : Char) (xs : List Char) :
    splitInclusive c (x :: xs) ≠ [] := by
  unfold splitInclusive
  by_cases hx : x = c
  · rw [if_pos hx]
    exact List.cons_ne_nil _ _
  · rw [if_neg hx]
    cases h : splitInclusive c xs
    · exact List.cons_ne_nil _ _
    · exact List.cons_ne_nil _ _

theorem flatten_splitInclusive (c : Char) (s : List Char) :
    (splitInclusive c s).flatten = s := by
  induction s with
  | nil => rfl
  | cons x xs ih =>
    unfold splitInclusive
    by_cases hx : x = c
    · rw [if_pos hx]
      simp [List.flatten_cons, ih]
    · rw [if_neg hx]
      cases h : splitInclusive c xs with
      | nil =>
        have hxs : xs = [] := by
          cases xs with
          | nil => rfl
          | cons y ys => exact absurd h (splitInclusive_ne_nil c y ys)
        simp [hxs]
      | cons s1 rest =>
        have hflat : s1 ++ rest.flatten = xs := by
          have := ih
          rw [h, List.flatten_cons] at this
          exact this
        rw [List.flatten_cons, List.cons_append, hflat]

theorem flatten_drop_suffix (l : List (List Char)) (n : Nat) :
    (l.drop n).flatten <:+ l.flatten := by
  conv_rhs => rw [← List.take_append_drop n l]
  rw [List.flatten_append]
  exact ⟨(l.take n).flatten, rfl⟩

theorem bitflagName_suffix (e : Enum) (vn : List Char) :
    bitflagName e vn <:+ vn := by
  unfold bitflagName
  have h := flatten_drop_suffix (splitInclusive '_' vn) e.prefix_count
  rwa [flatten_splitInclusive] at h

/-!  Claim theorems. -/

/-- C1 (counterexample): on the spec's input `"float [4]"` — with a
space before the bracket — `format_type` does NOT return the array of
mapped floats: the residual base `"float "` (trailing space) misses the
lookup table and passes through, giving `"[float ; 4]"`. -/
theorem format_type_spaced_array_cex :
    format_type ((r"float [4]").toList) = some ((r"[float ; 4]").toList) ∧
    format_type ((r"float [4]").toList) ≠ some ((r"[core::ffi::c_float; 4]").toList) := by
  decide

/-- C1 (amended): for the space-free input `"float[4]"` — the form the
raylib API document uses — `format_type` returns the fixed-size-array
type of 4 mapped floats, `"[core::ffi::c_float; 4]"`. -/
theorem format_type_array_mapped :
    format_type ((r"float[4]").toList) = some ((r"[core::ffi::c_float; 4]").toList) := by
  decide

/-- C2: every base-type name of the fixed lookup table maps to its
documented FFI equivalent, and any other base name (no `const ` prefix,
no pointer suffix, no bracket, not in the table) passes through
unchanged. -/
theorem format_type_table_roundtrip :
    (format_type ((r"float").toList) = some ((r"core::ffi::c_float").toList) ∧
     format_type ((r"double").toList) = some ((r"core::ffi::c_double").toList) ∧
     format_type ((r"unsigned char").toList) = some ((r"core::ffi::c_uchar").toList) ∧
     format_type ((r"signed char").toList) = some ((r"core::ffi::c_schar").toList) ∧
     format_type ((r"char").toList) = some ((r"core::ffi::c_char").toList) ∧
     format_type ((r"unsigned short").toList) = some ((r"core::ffi::c_ushort").toList) ∧
     format_type ((r"signed short").toList) = some ((r"core::ffi::c_short").toList) ∧
     format_type ((r"short").toList) = some ((r"core::ffi::c_short").toList) ∧
     format_type ((r"unsigned int").toList) = some ((r"core::ffi::c_uint").toList) ∧
     format_type ((r"signed int").toList) = some ((r"core::ffi::c_int").toList) ∧
     format_type ((r"int").toList) = some ((r"core::ffi::c_int").toList) ∧
     format_type ((r"unsigned long").toList) = some ((r"core::ffi::c_ulong").toList) ∧
     format_type ((r"signed long").toList) = some ((r"core::ffi::c_long").toList) ∧
     format_type ((r"long").toList) = some ((r"core::ffi::c_long").toList) ∧
     format_type ((r"unsigned long long").toList) = some ((r"core::ffi::c_ulonglong").toList) ∧
     format_type ((r"signed long long").toList) = some ((r"core::ffi::c_longlong").toList) ∧
     format_type ((r"long long").toList) = some ((r"core::ffi::c_longlong").toList) ∧
     format_type ((r"void").toList) = some ((r"core::ffi::c_void").toList)) ∧
    ∀ s : List Char, ¬ ((r"const ").toList <+: s) → ¬ ((r" *").toList <:+ s) →
      ¬ ((r" **").toList <:+ s) → '[' ∉ s → s ∉ baseKeys →
      format_type s = some s := by
  refine ⟨by decide, ?_⟩
  intro s h1 h2 h3 h4 h5
  unfold format_type
  rw [splitConst_of_not h1]
  show (splitRef s).map (fun q => emitType (mapBase q.1) q.2 false) = some s
  rw [splitRef_self h2 h3 h4]
  show some (emitType (mapBase s) RefType.none false) = some s
  rw [mapBase_eq_self h5]
  rfl

/-- C2 witness: the pass-through case at the concrete struct name
`"Texture2D"`. -/
theorem format_type_table_roundtrip_witness :
    format_type ((r"Texture2D").toList) = some ((r"Texture2D").toList) :=
  format_type_table_roundtrip.2 ((r"Texture2D").toList)
    (by decide) (by decide) (by decide) (by decide) (by decide)

/-- C3: `"const int *"` maps to a const pointer to the mapped int,
`"char **"` to a mut pointer to mut pointer to the mapped char; and in
general a `const ` prefix changes only the mutability flag handed to
the emitter — the stripped base, its table mapping and the reference
marker are computed identically with or without it. -/
theorem format_type_constness :
    format_type ((r"const int *").toList) = some ((r"*const core::ffi::c_int").toList) ∧
    format_type ((r"char **").toList) = some ((r"*mut *mut core::ffi::c_char").toList) ∧
    ∀ dt : List Char, ¬ ((r"const ").toList <+: dt) →
      format_type ((r"const ").toList ++ dt) =
        (splitRef dt).map (fun q => emitType (mapBase q.1) q.2 true) ∧
      format_type dt =
        (splitRef dt).map (fun q => emitType (mapBase q.1) q.2 false) := by
  refine ⟨by decide, by decide, ?_⟩
  intro dt h
  constructor
  · unfold format_type
    rw [splitConst_append]
  · unfold format_type
    rw [splitConst_of_not h]

/-- C3 witness: the const-prefix case at the concrete base `"int"`. -/
theorem format_type_constness_witness :
    format_type ((r"const ").toList ++ (r"int").toList) =
      (splitRef ((r"int").toList)).map (fun q => emitType (mapBase q.1) q.2 true) :=
  (format_type_constness.2.2 ((r"int").toList) (by decide)).1

/-- C4: for a non-bitflag enum the plain emitter renders exactly the
values kept by `dedupValues`: a sublist of the value list (first-seen
order), with exactly one entry per numeric code that occurs, and the
kept entry for each code is the first value of the list carrying that
code — every later value with an already-seen code is dropped. -/
theorem enum_generate_code_dedup (e : Enum) (code : List Char)
    (h : e.is_bitflags = false) :
    e.generate_code code =
      code ++ enumHeader e ++ "pub enum ".toList ++ e.name ++ " \x7b\n".toList ++
        ((dedupValues e.values []).map (renderVariant e)).flatten ++ "\x7d\n".toList ∧
    (dedupValues e.values []).Sublist e.values ∧
    (∀ c : Nat, (dedupValues e.values []).countP (fun v => v.value == c) =
      if e.values.any (fun v => v.value == c) then 1 else 0) ∧
    (∀ c : Nat, (dedupValues e.values []).find? (fun v => v.value == c) =
      e.values.find? (fun v => v.value == c)) := by
  refine ⟨?_, dedupValues_sublist _ _,
    fun c => dedupValues_countP _ _ (by simp),
    fun c => dedupValues_find _ _ (by simp)⟩
  unfold Enum.generate_code
  simp only [h, Bool.false_eq_true, if_false]
  rw [genValues_eq]

/-- C4 witness: an enum whose two values share numeric code 3 keeps
exactly one entry with that code. -/
theorem enum_generate_code_dedup_witness :
    (dedupValues fooEnum.values []).countP (fun v => v.value == 3) =
      if fooEnum.values.any (fun v => v.value == 3) then 1 else 0 :=
  (enum_generate_code_dedup fooEnum [] (by decide)).2.2.1 3

/-- C5: the bitflag emitter appends the synthetic `const _ = !0;`
catch-all after the named bit constants, and the union of all named
constant values with the catch-all value `!0 = 2^32 - 1` has every one
of the 32 bit positions set — no gap. -/
theorem bitflags_catchall (e : Enum) (code : List Char)
    (_h : e.is_bitflags = true) :
    e.generate_bitflags code =
      code ++ "pub struct ".toList ++ e.name ++ "(u32);\n\n".toList ++
        "bitflags::bitflags! \x7b\n\timpl ".toList ++ e.name ++ ": u32 \x7b\n".toList ++
        (e.values.map (renderBitflag e)).flatten ++
        "\n\t\tconst _ = !0;\n".toList ++ "\t\x7d\n\x7d\n".toList ∧
    ∀ i : Nat, i < 32 →
      Nat.testBit ((e.values.foldl (fun a v => a ||| v.value) 0) ||| catchAllValue) i
        = true := by
  constructor
  · simp only [Enum.generate_bitflags, foldl_append_flatten, List.append_assoc]
  · intro i hi
    have hc : Nat.testBit catchAllValue i = true := by
      revert hi
      revert i
      decide
    simp [Nat.testBit_or, hc]

/-- C5 witness: bit 5 is covered for a concrete allow-listed enum. -/
theorem bitflags_catchall_witness :
    Nat.testBit ((cfgEnum.values.foldl (fun a v => a ||| v.value) 0) ||| catchAllValue) 5
      = true :=
  (bitflags_catchall cfgEnum [] (by decide)).2 5 (by decide)

/-- C6 (counterexample): outside the `PixelFormat` family, a segment is
NOT always lower-cased right after its first character: the `IVEC`
carve-out keeps two leading characters, so the value `SHADER_UNIFORM_IVEC2`
of enum `ShaderUniformDataType` normalizes to `IVec2`, not `Ivec2`. -/
theorem format_value_name_ivec_cex :
    Enum.format_value_name ⟨(r"ShaderUniformDataType").toList, [], []⟩
        ((r"SHADER_UNIFORM_IVEC2").toList) = (r"IVec2").toList ∧
    (r"IVec2").toList ≠ (r"Ivec2").toList := by
  decide

/-- C6 (amended): in the normalizer, a digit-carrying segment is kept
verbatim exactly when the enum is `PixelFormat`; for any segment of
length > 1 not under that exemption — digits or not — the output has
the same length as the input, characters in the window from
`segLowerStart` (1, or 2 for an `IVEC`-prefixed segment) up to
`segLowerStop` (the length, minus 1 for a `2D`-suffixed segment) are
lower-cased, and all characters outside the window are unchanged. -/
theorem formatSegment_spec (e : Enum) (s : List Char) :
    (e.name = (r"PixelFormat").toList → s.any Char.isDigit = true →
      formatSegment e.name s = s) ∧
    (¬(e.name = (r"PixelFormat").toList ∧ s.any Char.isDigit = true) →
      1 < s.length →
      (formatSegment e.name s).length = s.length ∧
      ∀ k : Nat, (formatSegment e.name s)[k]? =
        if segLowerStart s ≤ k ∧ k < segLowerStop s then (s[k]?).map Char.toLower
        else s[k]?) := by
  constructor
  · intro hpx hdig
    unfold formatSegment
    rw [if_neg]
    intro hc
    exact hc.2 ⟨hpx, hdig⟩
  · intro hcond hlen
    have hi1 : 1 ≤ segLowerStart s := by
      unfold segLowerStart
      split <;> omega
    have hij : segLowerStart s ≤ segLowerStop s := by
      unfold segLowerStart segLowerStop
      by_cases hp : (r"IVEC").toList <+: s
      · have h4 : 4 ≤ s.length := by simpa using hp.length_le
        rw [if_pos hp]
        by_cases hs : (r"2D").toList <:+ s
        · rw [if_pos hs]
          omega
        · rw [if_neg hs]
          omega
      · rw [if_neg hp]
        by_cases hs : (r"2D").toList <:+ s
        · rw [if_pos hs]
          omega
        · rw [if_neg hs]
          omega
    have hjn : segLowerStop s ≤ s.length := by
      unfold segLowerStop
      split <;> omega
    have hin : segLowerStart s ≤ s.length := le_trans hij hjn
    unfold formatSegment
    rw [if_pos ⟨hlen, hcond⟩]
    constructor
    · simp only [List.length_append, List.length_map, List.length_take,
        List.length_drop]
      omega
    · intro k
      simp only [List.getElem?_append, List.getElem?_take, List.getElem?_map,
        List.getElem?_drop, List.length_append, List.length_map, List.length_take,
        List.length_drop, Nat.min_eq_left hin,
        Nat.min_eq_left (show segLowerStop s - segLowerStart s ≤ s.length - segLowerStart s by omega)]
      by_cases hk1 : k < segLowerStart s
      · rw [if_pos (by omega), if_pos hk1, if_pos hk1, if_neg (by omega : ¬(segLowerStart s ≤ k ∧ k < segLowerStop s))]
      · by_cases hk2 : k < segLowerStop s
        · rw [if_pos (by omega), if_neg hk1, if_pos (by omega : k - segLowerStart s < segLowerStop s - segLowerStart s),
            show segLowerStart s + (k - segLowerStart s) = k from by omega,
            if_pos (by omega : segLowerStart s ≤ k ∧ k < segLowerStop s)]
        · rw [if_neg (by omega), if_neg (by omega : ¬(segLowerStart s ≤ k ∧ k < segLowerStop s)),
            show segLowerStop s + (k - (segLowerStart s + (segLowerStop s - segLowerStart s))) = k from by omega]

/-- C6 witness: for a non-`PixelFormat` enum, the character at index 1
of the normalized segment `FREE` is the lower-cased original. -/
theorem formatSegment_spec_witness :
    (formatSegment ((r"CameraMode").toList) ((r"FREE").toList))[1]? =
      if segLowerStart ((r"FREE").toList) ≤ 1 ∧ 1 < segLowerStop ((r"FREE").toList)
      then ((((r"FREE").toList))[1]?).map Char.toLower
      else (((r"FREE").toList))[1]? :=
  ((formatSegment_spec ⟨(r"CameraMode").toList, [], []⟩ ((r"FREE").toList)).2
    (by decide) (by decide)).2 1

/-- C7: a parameter named `type` or `box` is emitted as its raw
identifier `r#type` / `r#box`, every other parameter name passes
through `escapeName` unchanged, every non-variadic parameter goes
through `escapeName`; and the struct-field path applies no escaping — a
field literally named `type` is emitted verbatim. -/
theorem reserved_word_escaping :
    escapeName ((r"type").toList) = (r"r#type").toList ∧
    escapeName ((r"box").toList) = (r"r#box").toList ∧
    (∀ n : List Char, n ≠ (r"type").toList → n ≠ (r"box").toList →
      escapeName n = n) ∧
    (∀ p : TypedIdent, p.data_type ≠ (r"...").toList →
      renderParam p = (format_type p.data_type).map
        (fun t => escapeName p.name ++ ": ".toList ++ t ++ ", ".toList)) ∧
    Function.generate_code_common escFunction [] = some escFunctionExpected ∧
    Struct.generate_code typeFieldStruct [] = some typeFieldStructExpected := by
  refine ⟨by decide, by decide, ?_, ?_, by decide, by decide⟩
  · intro n h1 h2
    unfold escapeName
    rw [if_neg h1, if_neg h2]
  · intro p h
    unfold renderParam
    rw [if_neg h]

/-- C7 witness: an ordinary parameter name is unchanged. -/
theorem reserved_word_escaping_witness :
    escapeName ((r"width").toList) = (r"width").toList :=
  reserved_word_escaping.2.2.1 ((r"width").toList) (by decide) (by decide)

/-- C8: `Definition::generate_code` leaves the buffer unchanged (and
does not fail) for any kind other than `INT` and `STRING`; an `INT`
definition emits an unsigned-integer constant and a `STRING` definition
a string constant. -/
theorem definition_kind_dispatch :
    (∀ (d : Definition) (code : List Char), d.kind ≠ (r"INT").toList →
      d.kind ≠ (r"STRING").toList → d.generate_code code = some code) ∧
    (∀ (d : Definition) (code : List Char) (n : Nat),
      d.kind = (r"INT").toList → d.value.as_u64 = some n →
      d.generate_code code = some (code ++ "pub const ".toList ++ d.name ++
        ": u32 = ".toList ++ natStr n ++ ";\n".toList)) ∧
    (∀ (d : Definition) (code : List Char) (s : List Char),
      d.kind = (r"STRING").toList → d.value.as_str = some s →
      d.generate_code code = some (code ++ "pub const ".toList ++ d.name ++
        ": &str = \"".toList ++ s ++ "\";\n".toList)) := by
  refine ⟨?_, ?_, ?_⟩
  · intro d code h1 h2
    unfold Definition.generate_code
    rw [if_neg h1, if_neg h2]
  · intro d code n h1 h2
    unfold Definition.generate_code
    rw [if_pos h1, h2]
    rfl
  · intro d code s h1 h2
    unfold Definition.generate_code
    rw [h1, if_neg (by decide), if_pos rfl, h2]
    rfl

/-- C8 witness: a definition of the unsupported kind `FLOAT` is
silently skipped. -/
theorem definition_kind_dispatch_witness :
    Definition.generate_code floatDefinition ((r"existing").toList) =
      some ((r"existing").toList) :=
  definition_kind_dispatch.1 floatDefinition ((r"existing").toList)
    (by decide) (by decide)

/-- C9: in signature emission, a ` -> mapped-return-type` annotation is
appended exactly when the return type string is not `"void"`. -/
theorem return_type_dispatch :
    ∀ (f : Function) (code : List Char),
      (f.return_type = (r"void").toList →
        f.generate_code_common code =
          (renderParams f.params).map (fun ps => code ++ '(' :: ps ++ [')'])) ∧
      (f.return_type ≠ (r"void").toList →
        f.generate_code_common code =
          match renderParams f.params, format_type f.return_type with
          | some ps, some t =>
            some (code ++ '(' :: ps ++ [')'] ++ " -> ".toList ++ t)
          | _, _ => Option.none) := by
  intro f code
  constructor
  · intro h
    unfold Function.generate_code_common
    cases renderParams f.params with
    | none => rfl
    | some ps => simp [h]
  · intro h
    unfold Function.generate_code_common
    cases renderParams f.params with
    | none => rfl
    | some ps =>
      have h2 : ¬ f.return_type = ['v', 'o', 'i', 'd'] := by simpa using h
      cases format_type f.return_type with
      | none => simp [h2]
      | some t => simp [h2]

/-- C9 witness: a void-returning signature gets no return annotation. -/
theorem return_type_dispatch_witness :
    Function.generate_code_common voidFunction [] =
      (renderParams voidFunction.params).map (fun ps => [] ++ '(' :: ps ++ [')']) :=
  (return_type_dispatch voidFunction []).1 (by decide)

/-- C10: the bitflag path never deduplicates: it emits one constant per
value in list order, numeric codes listed with multiplicity; and each
constant name is a verbatim contiguous suffix of the original value
name obtained by dropping the prefix segments — underscores and
upper-case kept, no case conversion. -/
theorem bitflags_no_dedup (e : Enum) :
    (bitflagEntries e).map Prod.snd = e.values.map (fun v => v.value) ∧
    (∀ v : EnumValue, v ∈ e.values → bitflagName e v.name <:+ v.name) ∧
    ∀ code : List Char, e.generate_bitflags code =
      code ++ "pub struct ".toList ++ e.name ++ "(u32);\n\n".toList ++
        "bitflags::bitflags! \x7b\n\timpl ".toList ++ e.name ++ ": u32 \x7b\n".toList ++
        (e.values.map (renderBitflag e)).flatten ++
        "\n\t\tconst _ = !0;\n".toList ++ "\t\x7d\n\x7d\n".toList := by
  refine ⟨?_, fun v _ => bitflagName_suffix e v.name, ?_⟩
  · unfold bitflagEntries
    rw [List.map_map]
    rfl
  · intro code
    simp only [Enum.generate_bitflags, foldl_append_flatten, List.append_assoc]

/-- C10 witness: the constant name for `FLAG_VSYNC_HINT` in a concrete
allow-listed enum is a verbatim suffix of the original name. -/
theorem bitflags_no_dedup_witness :
    bitflagName cfgEnum ((r"FLAG_VSYNC_HINT").toList) <:+ ((r"FLAG_VSYNC_HINT").toList) :=
  (bitflags_no_dedup cfgEnum).2.1 ⟨(r"FLAG_VSYNC_HINT").toList, [], 64⟩ (by decide)

end RaylibGen
